import Mathlib

/-!
# Verification of the farmers-analytics reconciliation pipeline

Shallow embedding of the data-reconciliation core of `src/app.py`:
the paginated fetcher (`load_data_batched`), the `farmer_id`
normalization, the traceability aggregation (`trace_agg`), the
left-outer merge (`merged_df`), the delivery-percentage computation,
the filter stage, and the certification grouped views
(`cert_coop_summary`, `cert_exp_summary`).

Numbers are modelled as exact rationals (`ℚ`); pandas `NaN` cells are
modelled as `Option` being `none`.  IEEE division by zero is modelled
explicitly by the `Perc` type (`posInf` for `x/0` with `x > 0`, and the
`NaN` results that `fillna(0)` later turns into `0` are folded into
`Perc.val 0`).
-/

set_option autoImplicit false

namespace Cloudia

/-- One row of the `farmers` table: `farmer_id` (string key),
`cooperative` and `max_quota_kg` possibly missing (pandas `NaN`). -/
structure FarmerRow where
  farmer_id : String
  cooperative : Option String
  max_quota_kg : Option ℚ
  deriving DecidableEq, Repr

/-- One row of the `traceability` table; every non-key field may be
missing (pandas `NaN`). -/
structure TraceRow where
  farmer_id : String
  net_weight_kg : Option ℚ
  certification : Option String
  exporter : Option String
  deriving DecidableEq, Repr

/-! ## farmer_id normalization (app.py lines 84-85)

`df['farmer_id'].astype(str).str.strip().str.lower()` — trim
surrounding whitespace, then lower-case.  We model `strip` and `lower`
directly over the character list. -/

/-- Model of Python `str.strip()`: drop whitespace from both ends. -/
def stripStr (s : String) : String :=
  ⟨(((s.data.dropWhile Char.isWhitespace).reverse.dropWhile Char.isWhitespace).reverse)⟩

/-- Model of Python `str.lower()` (ASCII case folding). -/
def lowerStr (s : String) : String :=
  ⟨s.data.map Char.toLower⟩

/-- The normalization applied to `farmer_id` on both tables:
trim, then lower-case. -/
def normId (s : String) : String := lowerStr (stripStr s)

/-- Line 84: overwrite `farmer_id` with its normalization in the
farmers table. -/
def normFarmers (fs : List FarmerRow) : List FarmerRow :=
  fs.map (fun f => { f with farmer_id := normId f.farmer_id })

/-- Line 85: overwrite `farmer_id` with its normalization in the
traceability table. -/
def normTraces (ts : List TraceRow) : List TraceRow :=
  ts.map (fun e => { e with farmer_id := normId e.farmer_id })

/-! ## first-occurrence distinct values

pandas `Series.unique()` and the set of `groupby` keys: the distinct
values in order of first occurrence. -/

/-- Auxiliary: distinct elements of the list in first-occurrence
order, skipping anything already in `seen`. -/
def uniqAux {α : Type} [DecidableEq α] (seen : List α) : List α → List α
  | [] => []
  | x :: xs => if x ∈ seen then uniqAux seen xs else x :: uniqAux (x :: seen) xs

/-- Distinct elements in first-occurrence order (pandas `unique`). -/
def uniqueFirst {α : Type} [DecidableEq α] (l : List α) : List α := uniqAux [] l

/-! ## traceability aggregation (app.py lines 88-96) -/

/-- The group of (already normalized) trace rows for key `k`. -/
def groupOf (ts : List TraceRow) (k : String) : List TraceRow :=
  ts.filter (fun e => e.farmer_id = k)

/-- Aggregation `'net_weight_kg': 'sum'` — pandas `sum` skips `NaN`, i.e. missing
weights contribute `0`. -/
def aggNet (g : List TraceRow) : ℚ :=
  (g.map (fun e => e.net_weight_kg.getD 0)).sum

/-- Model of Python `sep.join l`. -/
def joinSep (sep : String) : List String → String
  | [] => ""
  | [x] => x
  | x :: y :: xs => x ++ sep ++ joinSep sep (y :: xs)

/-- Aggregation `'certification': lambda x: ', '.join([str(val) for val in
x.dropna().unique() if str(val).strip() != ''])` — the distinct
non-null certification values of the group, in first-occurrence order,
keeping only those that are non-blank, joined with `", "`. -/
def aggCertRaw (g : List TraceRow) : String :=
  joinSep ", "
    ((uniqueFirst (g.filterMap (fun e => e.certification))).filter
      (fun v => stripStr v ≠ ""))

/-- Aggregation `'exporter': 'first'` — pandas group `first` is the first
non-null value of the group (or `NaN` if none). -/
def aggExporterRaw (g : List TraceRow) : Option String :=
  (g.filterMap (fun e => e.exporter)).head?

/-- One row of `trace_agg` after the post-processing of lines 95-96
(`replace('', 'Unknown')` on certification, `fillna('Unknown')` on
exporter), so both text fields are plain strings. -/
structure AggRow where
  farmer_id : String
  net_weight_kg : ℚ
  certification : String
  exporter : String
  deriving DecidableEq, Repr

/-- The `trace_agg` row of one group (key `k`), with the
post-processing of lines 95-96 applied (`replace('', 'Unknown')` on
certification, `fillna('Unknown')` on exporter). -/
def aggRowOf (ts : List TraceRow) (k : String) : AggRow :=
  { farmer_id := k
    net_weight_kg := aggNet (groupOf ts k)
    certification :=
      if aggCertRaw (groupOf ts k) = "" then "Unknown" else aggCertRaw (groupOf ts k)
    exporter := (aggExporterRaw (groupOf ts k)).getD "Unknown" }

/-- Lines 88-96: group the (normalized) traceability table by
`farmer_id` and aggregate, then replace the empty certification join
by `"Unknown"` and fill a missing exporter with `"Unknown"`. -/
def traceAgg (ts : List TraceRow) : List AggRow :=
  (uniqueFirst (ts.map (fun e => e.farmer_id))).map (aggRowOf ts)

/-! ## left-outer merge and fill (app.py lines 99-102) -/

/-- One row of `merged_df` after the `fillna` of lines 100-102. -/
structure MergedRow where
  farmer_id : String
  cooperative : Option String
  max_quota_kg : Option ℚ
  net_weight_kg : ℚ
  certification : String
  exporter : String
  deriving DecidableEq, Repr

/-- The merged row of a single farmer row: the unique matching
`trace_agg` row if any (the right side of the merge has unique keys),
else the fill-in values of lines 100-102. -/
def mergedFor (ag : List AggRow) (f : FarmerRow) : MergedRow :=
  match ag.find? (fun a => a.farmer_id = f.farmer_id) with
  | some a =>
      { farmer_id := f.farmer_id, cooperative := f.cooperative
        max_quota_kg := f.max_quota_kg, net_weight_kg := a.net_weight_kg
        certification := a.certification, exporter := a.exporter }
  | none =>
      { farmer_id := f.farmer_id, cooperative := f.cooperative
        max_quota_kg := f.max_quota_kg, net_weight_kg := 0
        certification := "Unknown", exporter := "Unknown" }

/-- Line 99-102: `farmers_df.merge(trace_agg, on='farmer_id',
how='left')` followed by `fillna`.  A left merge keeps every left row,
in order. -/
def mergeLeft (fs : List FarmerRow) (ag : List AggRow) : List MergedRow :=
  fs.map (mergedFor ag)

/-! ## delivery percentage (app.py lines 105-106) -/

/-- Value of a float cell of the `delivery_percentage` column after
`fillna(0)`: either a finite rational or an IEEE infinity. -/
inductive Perc where
  | val (q : ℚ)
  | posInf
  | negInf
  deriving DecidableEq, Repr

/-- Model of `round(x, 2)` (round to two decimal places). -/
def round2 (q : ℚ) : ℚ := (round (q * 100) : ℚ) / 100

/-- Lines 105-106:
`(net_weight_kg / max_quota_kg * 100).round(2)` then `fillna(0)`,
with float semantics: `x / NaN = NaN` (filled to `0`),
`0 / 0 = NaN` (filled to `0`), `x / 0 = ±inf` for `x ≠ 0`
(`round` and `fillna` leave infinities unchanged). -/
def deliveryPct (net : ℚ) (quota : Option ℚ) : Perc :=
  match quota with
  | none => .val 0
  | some q =>
      if q = 0 then
        if net = 0 then .val 0
        else if 0 < net then .posInf
        else .negInf
      else .val (round2 (net / q * 100))

/-- One row of the reconciled summary (`merged_df` with
`delivery_percentage`). -/
structure SummaryRow where
  farmer_id : String
  cooperative : Option String
  max_quota_kg : Option ℚ
  net_weight_kg : ℚ
  certification : String
  exporter : String
  delivery_percentage : Perc
  deriving DecidableEq, Repr

/-- Lines 105-106 applied to one merged row. -/
def withPct (m : MergedRow) : SummaryRow :=
  { farmer_id := m.farmer_id, cooperative := m.cooperative
    max_quota_kg := m.max_quota_kg, net_weight_kg := m.net_weight_kg
    certification := m.certification, exporter := m.exporter
    delivery_percentage := deliveryPct m.net_weight_kg m.max_quota_kg }

/-- The whole reconciliation pipeline (app.py lines 84-106):
normalize both tables, aggregate traceability, left-merge, fill,
compute the delivery percentage. -/
def reconcile (fs : List FarmerRow) (ts : List TraceRow) : List SummaryRow :=
  (mergeLeft (normFarmers fs) (traceAgg (normTraces ts))).map withPct

/-! ## filter stage (app.py lines 118-122)

`none` models the sentinel choice `'All'`; `some c` an exact-match
choice.  A pandas `==` comparison against a `NaN` cell is `False`,
modelled by comparing the `Option` to `some c`. -/

/-- Lines 118-122: apply the cooperative filter then the exporter
filter (the `exporter` column is a plain string after the fills). -/
def filterStage (rows : List SummaryRow) (coopChoice expChoice : Option String) :
    List SummaryRow :=
  let r1 := match coopChoice with
    | none => rows
    | some c => rows.filter (fun r => r.cooperative = some c)
  match expChoice with
  | none => r1
  | some x => r1.filter (fun r => r.exporter = x)

/-! ## paginated fetcher (app.py lines 44-66)

`load_data_batched(table_name, page_size)` loops, requesting
`range(offset, offset + page_size - 1)` (i.e. up to `page_size`
records starting at `offset`) and extending `all_rows`, until a page
comes back empty.  The remote table is modelled as the list `table`;
the request at `offset` returns `(table.drop offset).take P`.  The two
failure modes of the source are modelled by the optional offsets
`nullAt` (`result.data is None` at that request: the `st.error`
message naming the table, and `pd.DataFrame()` is returned) and
`failAt` (an exception at that request: the `except` branch message
naming the table, and `pd.DataFrame()` is returned).  The result is
`(error message emitted via st.error, returned rows, offsets of the
issued requests)`; the Python function's return value is only the
rows component — the message goes to the UI, not to the caller. -/
def load_data_batched {α : Type} (table : List α) (nullAt failAt : Option Nat)
    (tname : String) (P offset : Nat) : Option String × List α × List Nat :=
  if failAt = some offset then
    (some ("An error occurred during batched data loading from '" ++ tname ++ "'"),
      [], [offset])
  else if nullAt = some offset then
    (some ("Failed to fetch data from '" ++ tname ++ "' — no data returned."),
      [], [offset])
  else
    if h : ((table.drop offset).take P).isEmpty then (none, [], [offset])
    else
      match load_data_batched table nullAt failAt tname P (offset + P) with
      | (some e, _, offs) => (some e, [], offset :: offs)
      | (none, rest, offs) => (none, (table.drop offset).take P ++ rest, offset :: offs)
termination_by table.length - offset
decreasing_by
  have hne : (table.drop offset).take P ≠ [] := by
    intro hd
    exact h (List.isEmpty_iff.mpr hd)
  have hdrop : table.drop offset ≠ [] := by
    intro hd
    exact hne (by simp [hd])
  have hoff : offset < table.length := by
    by_contra hle
    exact hdrop (List.drop_eq_nil_of_le (Nat.le_of_not_lt hle))
  have hP : 0 < P := by
    rcases Nat.eq_zero_or_pos P with h0 | h0
    · exact absurd (by simp [h0]) hne
    · exact h0
  exact Nat.sub_lt_sub_left hoff (Nat.lt_add_of_pos_right hP)

/-- Model of `groupby(keys)[col].sum().reset_index()`: one output pair
per distinct non-null key (first-occurrence order), carrying the sum
of `val` over the rows with that key. -/
def groupBySum {α κ : Type} [DecidableEq κ] (key : α → Option κ) (val : α → ℚ)
    (rows : List α) : List (κ × ℚ) :=
  (uniqueFirst (rows.filterMap key)).map (fun k =>
    (k, ((rows.filter (fun r => key r = some k)).map val).sum))

/-- Total over all buckets of a grouped view. -/
def bucketTotal {κ : Type} (l : List (κ × ℚ)) : ℚ := (l.map Prod.snd).sum

/-! ## certification grouped views (app.py lines 205-222)

Both views consume the normalized trace table (`trace_df` was
normalized in place on line 85) restricted to the farmers present in
the filtered summary. -/

/-- Line 205: `filtered_df['farmer_id'].unique()`. -/
def filteredIds (S : List SummaryRow) : List String :=
  uniqueFirst (S.map (fun r => r.farmer_id))

/-- Lines 206-211: the trace rows of filtered farmers, left-merged
with `filtered_df[['farmer_id', 'cooperative']]`: each trace row is
paired with the cooperative of every summary row sharing its
`farmer_id` (one output row per match, pandas many-to-many), or with
a null cooperative when no summary row matches. -/
def certCoopFiltered (nts : List TraceRow) (S : List SummaryRow) :
    List (TraceRow × Option String) :=
  (nts.filter (fun e => e.farmer_id ∈ filteredIds S)).flatMap (fun e =>
    match S.filter (fun r => r.farmer_id = e.farmer_id) with
    | [] => [(e, none)]
    | ms => ms.map (fun r => (e, r.cooperative)))

/-- Line 212: `groupby(['cooperative', 'certification'])
['net_weight_kg'].sum()` — pandas drops rows with a missing value in
either grouping column. -/
def certCoopSummary (nts : List TraceRow) (S : List SummaryRow) :
    List ((String × String) × ℚ) :=
  groupBySum
    (fun p => match p.2, p.1.certification with
      | some c, some cert => some (c, cert)
      | _, _ => none)
    (fun p => p.1.net_weight_kg.getD 0)
    (certCoopFiltered nts S)

/-- Lines 221-222: `groupby(['exporter', 'certification'])
['net_weight_kg'].sum()` over the trace rows of filtered farmers. -/
def certExpSummary (nts : List TraceRow) (S : List SummaryRow) :
    List ((String × String) × ℚ) :=
  groupBySum
    (fun e => match e.exporter, e.certification with
      | some x, some cert => some (x, cert)
      | _, _ => none)
    (fun e => e.net_weight_kg.getD 0)
    (nts.filter (fun e => e.farmer_id ∈ filteredIds S))

/-! ## raw fetched frames (app.py lines 63, 80-85, 281-283)

`load_data_batched` materializes the fetched records with
`pd.DataFrame(all_rows)`: the columns are the union of the record
field names, so a zero-row fetch yields a frame with **no** columns.
Line 84 then evaluates `farmers_df['farmer_id']`, which raises
`KeyError: 'farmer_id'` on such a frame; the top-level handler of
lines 281-283 catches it and renders `Error loading data: 'farmer_id'`
instead of the dashboard. -/

/-- An untyped cell of a raw fetched record. -/
inductive Val where
  | str (s : String)
  | num (q : ℚ)
  | null
  deriving DecidableEq, Repr

/-- A raw record: field-name/value pairs as returned by the store. -/
abbrev RawRow : Type := List (String × Val)

/-- Columns of `pd.DataFrame(records)`: the union of the observed
field names in order of first appearance — empty for zero records. -/
def dfCols (rows : List RawRow) : List String :=
  uniqueFirst (rows.flatMap (fun r => r.map Prod.fst))

/-- Model of `astype(str)` on one cell (`NaN` prints as `"nan"`; the numeric
rendering stands in for Python float formatting). -/
def valAsStr (v : Val) : String :=
  match v with
  | .str s => s
  | .num q => toString q
  | .null => "nan"

/-- Reading one cell of a row of a frame that has the column: a row
missing the field holds `NaN` there. -/
def getCell (r : RawRow) (c : String) : Val :=
  ((r.find? (fun p => p.1 = c)).map Prod.snd).getD .null

/-- Overwriting one column cell of a row (adding it if absent). -/
def setCell (r : RawRow) (c : String) (v : Val) : RawRow :=
  if (r.find? (fun p => p.1 = c)).isSome then
    r.map (fun p => if p.1 = c then (c, v) else p)
  else r ++ [(c, v)]

/-- Line 84/85 on a raw frame:
`df['farmer_id'] = df['farmer_id'].astype(str).str.strip().str.lower()`.
Reading `df['farmer_id']` raises `KeyError` (Python renders it as
`'farmer_id'`) when the column is absent — in particular on the empty
frame produced by a zero-row fetch. -/
def standardizeFarmerId (rows : List RawRow) : Except String (List RawRow) :=
  if "farmer_id" ∈ dfCols rows then
    .ok (rows.map (fun r =>
      setCell r "farmer_id" (Val.str (normId (valAsStr (getCell r "farmer_id"))))))
  else .error "'farmer_id'"

/-- Lines 80-85 of the guarded block: both loaded frames pass through
the `farmer_id` standardization before any aggregation or merge; a
`KeyError` propagates to the top-level `except` handler. -/
def loadAndStandardize (farmersRaw traceRaw : List RawRow) :
    Except String (List RawRow × List RawRow) := do
  let f ← standardizeFarmerId farmersRaw
  let t ← standardizeFarmerId traceRaw
  pure (f, t)

/-! ## toolbox: the fetcher loop -/

/-- Arithmetic step for the request count: consuming one full-or-short
page shifts the remaining count by `P`. -/
lemma pageCount_step (m P : Nat) (hP : 0 < P) (hm : 0 < m) :
    (m + P - 1) / P = (m - P + P - 1) / P + 1 := by
  have h1 : m + P - 1 = (m - 1) + P := by omega
  rw [h1, Nat.add_div_right _ hP]
  rcases le_or_lt P m with hpm | hmp
  · have : m - P + P - 1 = m - 1 := by omega
    rw [this]
  · have h2 : m - P = 0 := by omega
    rw [h2]
    have h3 : (m - 1) / P = 0 := Nat.div_eq_of_lt (by omega)
    have h4 : (0 + P - 1) / P = 0 := Nat.div_eq_of_lt (by omega)
    omega

/-- Prepending the starting offset to the offsets of the remaining
requests shifts the request index by one. -/
lemma offsets_cons (offset P n : Nat) :
    offset :: (List.range n).map (fun i => offset + P + i * P) =
      (List.range (n + 1)).map (fun i => offset + i * P) := by
  rw [List.range_succ_eq_map, List.map_cons, List.map_map]
  congr 1
  · ring
  · refine List.map_congr_left fun i _ => ?_
    simp only [Function.comp_apply, Nat.succ_eq_add_one]
    ring

/-- Behaviour of the fetcher on a healthy source (no null page, no
exception): starting at `offset` it returns exactly the remaining
records, in order, and issues requests at offsets
`offset, offset + P, offset + 2P, …`, one request per full page of the
remainder plus the final empty-page request. -/
lemma load_data_batched_ok {α : Type} (table : List α) (tname : String) (P : Nat)
    (hP : 0 < P) :
    ∀ offset, load_data_batched table none none tname P offset =
      (none, table.drop offset,
        (List.range ((table.length - offset + P - 1) / P + 1)).map
          (fun i => offset + i * P)) := by
  suffices H : ∀ m offset, table.length - offset = m →
      load_data_batched table none none tname P offset =
        (none, table.drop offset,
          (List.range ((table.length - offset + P - 1) / P + 1)).map
            (fun i => offset + i * P)) by
    intro offset; exact H _ offset rfl
  intro m
  induction m using Nat.strong_induction_on with
  | _ m IH =>
    intro offset hm
    rw [load_data_batched]
    by_cases hrows : ((table.drop offset).take P).isEmpty = true
    · have hnil : (table.drop offset).take P = [] := List.isEmpty_iff.mp hrows
      have hdrop : table.drop offset = [] := by
        rcases List.take_eq_nil_iff.mp hnil with h0 | h0
        · omega
        · exact h0
      have hlen : table.length - offset = 0 :=
        Nat.sub_eq_zero_of_le (List.drop_eq_nil_iff.mp hdrop)
      have hc : (table.length - offset + P - 1) / P + 1 = 1 := by
        rw [hlen]
        have : (0 + P - 1) / P = 0 := Nat.div_eq_of_lt (by omega)
        omega
      simp [hrows, hdrop, hc]
      simp [List.range_succ]
    · have hne : (table.drop offset).take P ≠ [] :=
        fun hd => hrows (List.isEmpty_iff.mpr hd)
      have hdrop : table.drop offset ≠ [] := fun hd => hne (by simp [hd])
      have hoff : offset < table.length := by
        by_contra hle
        exact hdrop (List.drop_eq_nil_of_le (Nat.le_of_not_lt hle))
      have hm' : table.length - (offset + P) < m := by
        subst hm
        exact Nat.sub_lt_sub_left hoff (Nat.lt_add_of_pos_right hP)
      have hcount : (table.length - offset + P - 1) / P + 1 =
          ((table.length - (offset + P) + P - 1) / P + 1) + 1 := by
        have hstep := pageCount_step (table.length - offset) P hP (by omega)
        have hsub : table.length - (offset + P) = table.length - offset - P := by
          omega
        rw [hsub]
        omega
      rw [if_neg (show ¬(none : Option Nat) = some offset by simp),
        if_neg (show ¬(none : Option Nat) = some offset by simp), dif_neg hrows,
        IH _ hm' (offset + P) rfl, hcount,
        ← offsets_cons offset P ((table.length - (offset + P) + P - 1) / P + 1)]
      simp [List.drop_take_append_drop]

/-- Behaviour of the fetcher when an exception occurs at the `j`-th
request (offset `offset + j*P`), every earlier request having returned
a non-empty page: the `except` branch of lines 64-66 fires, the rows
accumulated from the first `j` pages are discarded, and the empty
frame is returned together with the error message naming the table. -/
lemma load_data_batched_exc {α : Type} (table : List α) (tname : String) (P : Nat)
    (hP : 0 < P) :
    ∀ (j offset : Nat), (∀ i < j, offset + i * P < table.length) →
      load_data_batched table none (some (offset + j * P)) tname P offset =
        (some ("An error occurred during batched data loading from '" ++ tname ++ "'"),
          [], (List.range (j + 1)).map (fun i => offset + i * P)) := by
  intro j
  induction j with
  | zero =>
    intro offset _
    rw [load_data_batched,
      if_pos (show (some (offset + 0 * P) : Option Nat) = some offset by norm_num)]
    simp [List.range_succ]
  | succ j IH =>
    intro offset H
    have harg : offset + (j + 1) * P = offset + P + j * P := by ring
    rw [harg]
    have hoff : offset < table.length := by
      have h0 := H 0 (Nat.succ_pos j)
      simpa using h0
    have hne' : ¬(((table.drop offset).take P).isEmpty = true) := by
      rw [List.isEmpty_iff]
      intro hnil
      rcases List.take_eq_nil_iff.mp hnil with h0 | h0
      · omega
      · have := List.drop_eq_nil_iff.mp h0
        omega
    have hH' : ∀ i < j, offset + P + i * P < table.length := by
      intro i hi
      have h1 := H (i + 1) (by omega)
      have h2 : offset + (i + 1) * P = offset + P + i * P := by ring
      rw [h2] at h1
      exact h1
    rw [load_data_batched,
      if_neg (show ¬(some (offset + P + j * P) : Option Nat) = some offset by
        intro hc
        injection hc with hc
        omega),
      if_neg (show ¬(none : Option Nat) = some offset by simp),
      dif_neg hne', IH (offset + P) hH']
    simp [offsets_cons]

/-- Behaviour of the fetcher when the `j`-th request returns a null
`result.data`, every earlier request having returned a non-empty page:
lines 53-55 fire, the accumulated rows are discarded, and the empty
frame is returned with the no-data message naming the table. -/
lemma load_data_batched_nulldata {α : Type} (table : List α) (tname : String) (P : Nat)
    (hP : 0 < P) :
    ∀ (j offset : Nat), (∀ i < j, offset + i * P < table.length) →
      load_data_batched table (some (offset + j * P)) none tname P offset =
        (some ("Failed to fetch data from '" ++ tname ++ "' — no data returned."),
          [], (List.range (j + 1)).map (fun i => offset + i * P)) := by
  intro j
  induction j with
  | zero =>
    intro offset _
    rw [load_data_batched,
      if_neg (show ¬(none : Option Nat) = some offset by simp),
      if_pos (show (some (offset + 0 * P) : Option Nat) = some offset by norm_num)]
    simp [List.range_succ]
  | succ j IH =>
    intro offset H
    have harg : offset + (j + 1) * P = offset + P + j * P := by ring
    rw [harg]
    have hoff : offset < table.length := by
      have h0 := H 0 (Nat.succ_pos j)
      simpa using h0
    have hne' : ¬(((table.drop offset).take P).isEmpty = true) := by
      rw [List.isEmpty_iff]
      intro hnil
      rcases List.take_eq_nil_iff.mp hnil with h0 | h0
      · omega
      · have := List.drop_eq_nil_iff.mp h0
        omega
    have hH' : ∀ i < j, offset + P + i * P < table.length := by
      intro i hi
      have h1 := H (i + 1) (by omega)
      have h2 : offset + (i + 1) * P = offset + P + i * P := by ring
      rw [h2] at h1
      exact h1
    rw [load_data_batched,
      if_neg (show ¬(none : Option Nat) = some offset by simp),
      if_neg (show ¬(some (offset + P + j * P) : Option Nat) = some offset by
        intro hc
        injection hc with hc
        omega),
      dif_neg hne', IH (offset + P) hH']
    simp [offsets_cons]

/-! ## toolbox: first-occurrence distinct values -/

lemma mem_uniqAux {α : Type} [DecidableEq α] (l : List α) :
    ∀ (seen : List α) (a : α), a ∈ uniqAux seen l ↔ a ∈ l ∧ a ∉ seen := by
  induction l with
  | nil => intro seen a; simp [uniqAux]
  | cons x xs IH =>
    intro seen a
    by_cases hx : x ∈ seen
    · rw [uniqAux, if_pos hx, IH]
      constructor
      · rintro ⟨ha, hs⟩
        exact ⟨List.mem_cons_of_mem _ ha, hs⟩
      · rintro ⟨ha, hs⟩
        rcases List.mem_cons.mp ha with rfl | ha
        · exact absurd hx hs
        · exact ⟨ha, hs⟩
    · rw [uniqAux, if_neg hx]
      constructor
      · intro hmem
        rcases List.mem_cons.mp hmem with rfl | hmem
        · exact ⟨List.mem_cons_self _ _, hx⟩
        · have h2 := (IH _ a).mp hmem
          exact ⟨List.mem_cons_of_mem _ h2.1,
            fun hs => h2.2 (List.mem_cons_of_mem _ hs)⟩
      · rintro ⟨ha, hs⟩
        rcases List.mem_cons.mp ha with rfl | ha
        · exact List.mem_cons_self _ _
        · by_cases hax : a = x
          · subst hax
            exact List.mem_cons_self _ _
          · refine List.mem_cons_of_mem _ ((IH _ a).mpr ⟨ha, ?_⟩)
            intro hmem
            rcases List.mem_cons.mp hmem with h1 | h1
            · exact hax h1
            · exact hs h1

lemma nodup_uniqAux {α : Type} [DecidableEq α] (l : List α) :
    ∀ seen : List α, (uniqAux seen l).Nodup := by
  induction l with
  | nil => intro seen; simp [uniqAux]
  | cons x xs IH =>
    intro seen
    rw [uniqAux]
    by_cases hx : x ∈ seen
    · rw [if_pos hx]; exact IH seen
    · rw [if_neg hx]
      refine List.nodup_cons.mpr ⟨?_, IH _⟩
      intro hmem
      exact ((mem_uniqAux xs _ x).mp hmem).2 (List.mem_cons_self _ _)

lemma mem_uniqueFirst {α : Type} [DecidableEq α] {l : List α} {a : α} :
    a ∈ uniqueFirst l ↔ a ∈ l := by
  rw [uniqueFirst, mem_uniqAux]
  simp

lemma nodup_uniqueFirst {α : Type} [DecidableEq α] (l : List α) :
    (uniqueFirst l).Nodup :=
  nodup_uniqAux l []

lemma uniqAux_eq_self {α : Type} [DecidableEq α] (l : List α) :
    ∀ seen : List α, l.Nodup → (∀ x ∈ l, x ∉ seen) → uniqAux seen l = l := by
  induction l with
  | nil => intro seen _ _; rfl
  | cons x xs IH =>
    intro seen hnd hdis
    rw [uniqAux, if_neg (hdis x (List.mem_cons_self _ _))]
    refine congrArg (x :: ·) (IH _ (List.nodup_cons.mp hnd).2 ?_)
    intro y hy hmem
    rcases List.mem_cons.mp hmem with rfl | h1
    · exact (List.nodup_cons.mp hnd).1 hy
    · exact hdis y (List.mem_cons_of_mem _ hy) h1

lemma uniqueFirst_eq_self {α : Type} [DecidableEq α] {l : List α} (h : l.Nodup) :
    uniqueFirst l = l :=
  uniqAux_eq_self l [] h (by simp)

lemma filter_uniqAux {α : Type} [DecidableEq α] (p : α → Bool) (l : List α) :
    ∀ seen : List α, (uniqAux seen l).filter p = uniqAux (seen.filter p) (l.filter p) := by
  induction l with
  | nil => intro seen; rfl
  | cons x xs IH =>
    intro seen
    rw [uniqAux]
    by_cases hx : x ∈ seen
    · rw [if_pos hx, List.filter_cons]
      by_cases hp : p x
      · rw [if_pos hp, uniqAux, if_pos (List.mem_filter.mpr ⟨hx, hp⟩), IH]
      · rw [if_neg hp, IH]
    · rw [if_neg hx, List.filter_cons, List.filter_cons]
      by_cases hp : p x
      · rw [if_pos hp, if_pos hp, uniqAux,
          if_neg (fun hmem => hx (List.mem_filter.mp hmem).1), IH]
        rw [List.filter_cons, if_pos hp]
      · rw [if_neg hp, if_neg hp, IH, List.filter_cons, if_neg hp]

lemma filter_uniqueFirst {α : Type} [DecidableEq α] (p : α → Bool) (l : List α) :
    (uniqueFirst l).filter p = uniqueFirst (l.filter p) :=
  filter_uniqAux p l []

/-! ## toolbox: grouped sums with null-key dropping

pandas `df.groupby(keys)[col].sum()` drops rows whose grouping key is
missing (`dropna=True` default), then sums the column per key.  `key`
returns `none` exactly on those dropped rows. -/

lemma sum_filter_and_split {α : Type} (val : α → ℚ) (p q : α → Bool) :
    ∀ rows : List α,
      ((rows.filter p).map val).sum =
        ((rows.filter (fun r => p r && q r)).map val).sum +
          ((rows.filter (fun r => p r && !q r)).map val).sum := by
  intro rows
  induction rows with
  | nil => simp
  | cons x xs IH =>
    by_cases hp : p x
    · by_cases hq : q x
      · simp [List.filter_cons, hp, hq, IH]
        ring
      · simp [List.filter_cons, hp, hq, IH]
        ring
    · simp [List.filter_cons, hp, IH]

/-- Partition of the non-null-key rows along a list of distinct keys
covering every key value: summing the per-key group sums recovers the
sum over all rows with a non-null key. -/
lemma keyPartition {α κ : Type} [DecidableEq κ] (key : α → Option κ) (val : α → ℚ) :
    ∀ (ks : List κ) (rows : List α), ks.Nodup →
      (∀ r ∈ rows, ∀ k, key r = some k → k ∈ ks) →
      (ks.map (fun k => ((rows.filter (fun r => key r = some k)).map val).sum)).sum =
        ((rows.filter (fun r => (key r).isSome)).map val).sum := by
  intro ks
  induction ks with
  | nil =>
    intro rows _ hcover
    have hempty : rows.filter (fun r => (key r).isSome) = [] := by
      rw [List.filter_eq_nil]
      intro a ha hsome
      rcases Option.isSome_iff_exists.mp hsome with ⟨k, hk⟩
      exact absurd (hcover a ha k hk) (List.not_mem_nil k)
    rw [hempty]
    simp
  | cons k ks IH =>
    intro rows hnd hcover
    have hnotin : k ∉ ks := (List.nodup_cons.mp hnd).1
    have hnd' : ks.Nodup := (List.nodup_cons.mp hnd).2
    -- rows whose key is not `k`
    have hgroups : ∀ k' ∈ ks,
        rows.filter (fun r => key r = some k') =
          (rows.filter (fun r => ¬(key r = some k))).filter
            (fun r => key r = some k') := by
      intro k' hk'
      have hne : k' ≠ k := fun h => hnotin (h ▸ hk')
      rw [List.filter_filter]
      refine (List.filter_congr fun r _ => ?_).symm
      by_cases hkr : key r = some k'
      · simp [hkr, hne]
      · simp [hkr]
    have hcover' : ∀ r ∈ rows.filter (fun r => ¬(key r = some k)),
        ∀ k', key r = some k' → k' ∈ ks := by
      intro r hr k' hk'
      have hmem := List.mem_filter.mp hr
      rcases List.mem_cons.mp (hcover r hmem.1 k' hk') with rfl | h1
      · exact absurd (decide_eq_true hk') (by simpa using hmem.2)
      · exact h1
    have hIH := IH (rows.filter (fun r => ¬(key r = some k))) hnd' hcover'
    rw [List.map_cons, List.sum_cons]
    have hrw : (ks.map (fun k' =>
          ((rows.filter (fun r => key r = some k')).map val).sum)).sum =
        (ks.map (fun k' =>
          (((rows.filter (fun r => ¬(key r = some k))).filter
            (fun r => key r = some k')).map val).sum)).sum := by
      refine congrArg List.sum (List.map_congr_left fun k' hk' => ?_)
      rw [hgroups k' hk']
    rw [hrw, hIH]
    have hsplit := sum_filter_and_split val
      (fun r => (key r).isSome) (fun r => key r = some k) rows
    have h1 : rows.filter (fun r => (key r).isSome && (key r = some k)) =
        rows.filter (fun r => key r = some k) := by
      refine List.filter_congr fun r _ => ?_
      by_cases hk : key r = some k
      · simp [hk]
      · simp [hk]
    have h2 : rows.filter (fun r => (key r).isSome && !(key r = some k)) =
        (rows.filter (fun r => ¬(key r = some k))).filter
          (fun r => (key r).isSome) := by
      rw [List.filter_filter]
      refine List.filter_congr fun r _ => ?_
      rw [decide_not]
    rw [h1, h2] at hsplit
    rw [hsplit]

/-- Summing all buckets of a grouped view yields the sum of `val` over
the rows whose grouping key is present. -/
lemma bucketTotal_groupBySum {α κ : Type} [DecidableEq κ] (key : α → Option κ)
    (val : α → ℚ) (rows : List α) :
    bucketTotal (groupBySum key val rows) =
      ((rows.filter (fun r => (key r).isSome)).map val).sum := by
  rw [bucketTotal, groupBySum, List.map_map]
  refine Eq.trans ?_ (keyPartition key val (uniqueFirst (rows.filterMap key)) rows
    (nodup_uniqueFirst _) ?_)
  · rfl
  · intro r hr k hk
    exact mem_uniqueFirst.mpr (List.mem_filterMap.mpr ⟨r, hr, hk⟩)

/-! ## toolbox: structure of the reconciled summary -/

/-- The pipeline is a per-farmer-row map: each farmer row is
normalized, merged against the aggregate, and given its percentage,
independently of the other farmer rows. -/
lemma reconcile_eq_map (fs : List FarmerRow) (ts : List TraceRow) :
    reconcile fs ts = fs.map (fun f =>
      withPct (mergedFor (traceAgg (normTraces ts))
        { f with farmer_id := normId f.farmer_id })) := by
  rw [reconcile, mergeLeft, normFarmers, List.map_map, List.map_map]
  rfl

lemma mergedFor_farmer_id (ag : List AggRow) (f : FarmerRow) :
    (mergedFor ag f).farmer_id = f.farmer_id := by
  rw [mergedFor]
  rcases hfind : ag.find? (fun a => a.farmer_id = f.farmer_id) with _ | a <;> simp [hfind]

lemma mergedFor_cooperative (ag : List AggRow) (f : FarmerRow) :
    (mergedFor ag f).cooperative = f.cooperative := by
  rw [mergedFor]
  rcases hfind : ag.find? (fun a => a.farmer_id = f.farmer_id) with _ | a <;> simp [hfind]

lemma mergedFor_max_quota (ag : List AggRow) (f : FarmerRow) :
    (mergedFor ag f).max_quota_kg = f.max_quota_kg := by
  rw [mergedFor]
  rcases hfind : ag.find? (fun a => a.farmer_id = f.farmer_id) with _ | a <;> simp [hfind]

/-- The ids of the reconciled summary are exactly the normalized ids
of the farmer rows, in order. -/
lemma reconcile_map_id (fs : List FarmerRow) (ts : List TraceRow) :
    (reconcile fs ts).map (fun r => r.farmer_id) =
      fs.map (fun f => normId f.farmer_id) := by
  rw [reconcile_eq_map, List.map_map]
  refine List.map_congr_left fun f _ => ?_
  show (withPct (mergedFor _ _)).farmer_id = _
  rw [withPct]
  exact mergedFor_farmer_id _ _

lemma reconcile_length (fs : List FarmerRow) (ts : List TraceRow) :
    (reconcile fs ts).length = fs.length := by
  rw [reconcile_eq_map, List.length_map]

/-- Lookup `find?` over the aggregate rows is a lookup of the key among the
distinct trace ids. -/
lemma traceAgg_find? (ts : List TraceRow) (x : String) :
    (traceAgg ts).find? (fun a => a.farmer_id = x) =
      if x ∈ ts.map (fun e => e.farmer_id) then some (aggRowOf ts x) else none := by
  rw [traceAgg, List.find?_map]
  have hpred : ((fun a : AggRow => decide (a.farmer_id = x)) ∘ aggRowOf ts) =
      fun k => decide (k = x) := by
    funext k
    rfl
  rw [hpred]
  by_cases hx : x ∈ ts.map (fun e => e.farmer_id)
  · rw [if_pos hx]
    have hmem : x ∈ uniqueFirst (ts.map (fun e => e.farmer_id)) :=
      mem_uniqueFirst.mpr hx
    have hsome : ((uniqueFirst (ts.map (fun e => e.farmer_id))).find?
        (fun k => decide (k = x))).isSome := by
      rw [List.find?_isSome]
      exact ⟨x, hmem, by simp⟩
    rcases Option.isSome_iff_exists.mp hsome with ⟨y, hy⟩
    have hyx : y = x := of_decide_eq_true
      (@List.find?_some String (fun k => decide (k = x)) y
        (uniqueFirst (ts.map (fun e => e.farmer_id))) hy)
    rw [hy, hyx]
    rfl
  · rw [if_neg hx]
    have hnone : (uniqueFirst (ts.map (fun e => e.farmer_id))).find?
        (fun k => decide (k = x)) = none := by
      rw [List.find?_eq_none]
      intro k hk hdec
      exact hx (of_decide_eq_true hdec ▸ mem_uniqueFirst.mp hk)
    rw [hnone]
    rfl

/-- Content of a single merged row against the real aggregate. -/
lemma mergedFor_traceAgg (ts : List TraceRow) (f : FarmerRow) :
    mergedFor (traceAgg ts) f =
      if f.farmer_id ∈ ts.map (fun e => e.farmer_id) then
        { farmer_id := f.farmer_id, cooperative := f.cooperative
          max_quota_kg := f.max_quota_kg
          net_weight_kg := (aggRowOf ts f.farmer_id).net_weight_kg
          certification := (aggRowOf ts f.farmer_id).certification
          exporter := (aggRowOf ts f.farmer_id).exporter }
      else
        { farmer_id := f.farmer_id, cooperative := f.cooperative
          max_quota_kg := f.max_quota_kg, net_weight_kg := 0
          certification := "Unknown", exporter := "Unknown" } := by
  rw [mergedFor, traceAgg_find?]
  by_cases hx : f.farmer_id ∈ ts.map (fun e => e.farmer_id)
  · rw [if_pos hx, if_pos hx]
  · rw [if_neg hx, if_neg hx]

/-- The aggregated weight of an absent key is the (empty) group sum,
so every summary row's weight is its farmer's group sum. -/
lemma aggNet_of_not_mem (ts : List TraceRow) (x : String)
    (hx : x ∉ ts.map (fun e => e.farmer_id)) :
    aggNet (groupOf ts x) = 0 := by
  have hempty : groupOf ts x = [] := by
    rw [groupOf, List.filter_eq_nil_iff]
    intro e he hdec
    exact hx (List.mem_map.mpr ⟨e, he, of_decide_eq_true hdec⟩)
  rw [hempty, aggNet]
  rfl

/-- Every reconciled row's `net_weight_kg` is the sum of the
(normalized) trace weights of its own farmer id. -/
lemma reconcile_net (fs : List FarmerRow) (ts : List TraceRow) :
    ∀ r ∈ reconcile fs ts,
      r.net_weight_kg = aggNet (groupOf (normTraces ts) r.farmer_id) := by
  intro r hr
  rw [reconcile_eq_map] at hr
  rcases List.mem_map.mp hr with ⟨f, _, rfl⟩
  rw [withPct]
  show (mergedFor _ _).net_weight_kg = _
  rw [mergedFor_traceAgg]
  by_cases hx : normId f.farmer_id ∈ (normTraces ts).map (fun e => e.farmer_id)
  · rw [if_pos hx]
    have hid : (mergedFor (traceAgg (normTraces ts))
        { f with farmer_id := normId f.farmer_id }).farmer_id = normId f.farmer_id :=
      mergedFor_farmer_id _ _
    rw [mergedFor_traceAgg] at hid
    rw [if_pos hx] at hid
    simp only [hid]
    rfl
  · rw [if_neg hx]
    have hid : (mergedFor (traceAgg (normTraces ts))
        { f with farmer_id := normId f.farmer_id }).farmer_id = normId f.farmer_id :=
      mergedFor_farmer_id _ _
    rw [mergedFor_traceAgg, if_neg hx] at hid
    simp only [hid]
    exact (aggNet_of_not_mem _ _ hx).symm

/-- Every reconciled row's percentage is computed from its own weight
and quota. -/
lemma reconcile_pct (fs : List FarmerRow) (ts : List TraceRow) :
    ∀ r ∈ reconcile fs ts,
      r.delivery_percentage = deliveryPct r.net_weight_kg r.max_quota_kg := by
  intro r hr
  rw [reconcile_eq_map] at hr
  rcases List.mem_map.mp hr with ⟨f, _, rfl⟩
  rfl

/-! ## helper facts for the claims -/

lemma deliveryPct_none (net : ℚ) : deliveryPct net none = Perc.val 0 := rfl

lemma deliveryPct_zero (net : ℚ) :
    deliveryPct net (some 0) =
      if net = 0 then Perc.val 0 else if 0 < net then Perc.posInf else Perc.negInf := by
  rw [deliveryPct]
  norm_num

lemma normTraces_map_id (ts : List TraceRow) :
    (normTraces ts).map (fun e => e.farmer_id) = ts.map (fun e => normId e.farmer_id) := by
  rw [normTraces, List.map_map]
  rfl

lemma zip_map_self {α β : Type} (g : α → β) (l : List α) :
    l.zip (l.map g) = l.map (fun a => (a, g a)) := by
  induction l with
  | nil => rfl
  | cons x xs IH => simp [IH]

lemma string_length_zero {x : String} (h : x.length = 0) : x = "" := by
  cases x with
  | mk data =>
    cases data with
    | nil => rfl
    | cons c cs => simp [String.length] at h

lemma append_ne_empty_left {x y : String} (h : x ≠ "") : x ++ y ≠ "" := by
  intro hc
  have hlen : (x ++ y).length = 0 := by rw [hc]; rfl
  rw [String.length_append] at hlen
  exact h (string_length_zero (by omega))

/-- A separator-join of non-empty strings is empty exactly for the
empty list. -/
lemma joinSep_eq_empty_iff (sep : String) (l : List String)
    (hl : ∀ v ∈ l, v ≠ "") : joinSep sep l = "" ↔ l = [] := by
  cases l with
  | nil => simp [joinSep]
  | cons x xs =>
    cases xs with
    | nil =>
      rw [joinSep]
      constructor
      · intro h
        exact absurd h (hl x (List.mem_cons_self _ _))
      · intro h
        cases h
    | cons y ys =>
      rw [joinSep]
      constructor
      · intro h
        exact absurd h
          (append_ne_empty_left (append_ne_empty_left (hl x (List.mem_cons_self _ _))))
      · intro h
        cases h

lemma strip_ne_empty_self {v : String} (h : stripStr v ≠ "") : v ≠ "" := by
  intro hv
  rw [hv] at h
  exact h rfl

/-- The certification field of an aggregate row, characterised over
the flat event list: the distinct non-blank certification values of
the group joined with `", "`, or `"Unknown"` when there are none. -/
lemma aggRowOf_cert_char (ts : List TraceRow) (k : String) :
    (aggRowOf ts k).certification =
      if uniqueFirst (((ts.filter (fun e => e.farmer_id = k)).filterMap
            (fun e => e.certification)).filter (fun v => stripStr v ≠ "")) = []
      then "Unknown"
      else joinSep ", " (uniqueFirst (((ts.filter (fun e => e.farmer_id = k)).filterMap
            (fun e => e.certification)).filter (fun v => stripStr v ≠ ""))) := by
  show (if aggCertRaw (groupOf ts k) = "" then "Unknown" else aggCertRaw (groupOf ts k)) = _
  rw [aggCertRaw]
  unfold groupOf
  have hvals : (uniqueFirst ((ts.filter (fun e => e.farmer_id = k)).filterMap
        (fun e => e.certification))).filter (fun v => stripStr v ≠ "") =
      uniqueFirst (((ts.filter (fun e => e.farmer_id = k)).filterMap
        (fun e => e.certification)).filter (fun v => stripStr v ≠ "")) :=
    filter_uniqueFirst _ _
  have hne : ∀ v ∈ uniqueFirst (((ts.filter (fun e => e.farmer_id = k)).filterMap
      (fun e => e.certification)).filter (fun v => stripStr v ≠ "")), v ≠ "" := by
    intro v hv
    have hfil := mem_uniqueFirst.mp hv
    have hp := (List.mem_filter.mp hfil).2
    exact strip_ne_empty_self (of_decide_eq_true hp)
  rw [hvals]
  by_cases hv : uniqueFirst (((ts.filter (fun e => e.farmer_id = k)).filterMap
      (fun e => e.certification)).filter (fun v => stripStr v ≠ "")) = []
  · rw [if_pos ((joinSep_eq_empty_iff _ _ hne).mpr hv), if_pos hv]
  · rw [if_neg (fun hc => hv ((joinSep_eq_empty_iff _ _ hne).mp hc)), if_neg hv]

/-! ## the claims -/

/-- Claim C1 — counterexample.  The claim "`max_quota_kg = 0` implies
`delivery_percentage = 0` for any `net_weight_kg`, and the percentage
is always finite" fails on the code: for a farmer with quota `0` and a
delivered weight of `10`, `net/quota` is the IEEE `+inf`, which
`round(…, 2)` and `fillna(0)` (line 106, which only replaces `NaN`)
leave in place. -/
theorem C1_counterexample :
    (reconcile [⟨"F1", some "A", some 0⟩] [⟨"f1", some 10, none, none⟩]).map
        (fun r => (r.max_quota_kg, r.delivery_percentage)) =
      [(some 0, Perc.posInf)] := by
  simp +decide [reconcile, mergeLeft, mergedFor, withPct, traceAgg, aggRowOf,
    normFarmers, normTraces, uniqueFirst, uniqAux, groupOf, aggNet, aggCertRaw,
    aggExporterRaw, joinSep, deliveryPct, round2, List.find?]

/-- Claim C1 (amended): for a reconciled row with non-negative weight,
`max_quota_kg = 0` (or a missing quota) yields `delivery_percentage =
0` exactly when `net_weight_kg = 0` (the `NaN` of `0/0`, filled to
`0`), and the IEEE `+inf` when `net_weight_kg > 0`; no division fault
is raised, but the value is not the finite `0` the claim states. -/
theorem C1_zero_quota_percentage (fs : List FarmerRow) (ts : List TraceRow)
    (r : SummaryRow) (hr : r ∈ reconcile fs ts) (hnet : 0 ≤ r.net_weight_kg)
    (hq : r.max_quota_kg = some 0 ∨ r.max_quota_kg = none) :
    r.delivery_percentage =
      (if r.max_quota_kg = some 0 ∧ 0 < r.net_weight_kg then Perc.posInf
        else Perc.val 0) := by
  have hpct := reconcile_pct fs ts r hr
  rcases hq with hq | hq
  · rcases eq_or_lt_of_le hnet with hzero | hpos
    · have hz : r.net_weight_kg = 0 := hzero.symm
      rw [hpct, hq, deliveryPct_zero, if_pos hz,
        if_neg (fun hc => absurd (hz ▸ hc.2) (lt_irrefl 0))]
    · rw [hpct, hq, deliveryPct_zero,
        if_neg (fun h => absurd (h ▸ hpos) (lt_irrefl 0)),
        if_pos hpos, if_pos ⟨rfl, hpos⟩]
  · rw [hpct, hq, deliveryPct_none,
      if_neg (fun hc => Option.noConfusion hc.1)]

/-- Claim C1 — witness for the amended statement at a concrete input. -/
theorem C1_witness :
    ((⟨"f1", some "A", some 0, 10, "Unknown", "Unknown", Perc.posInf⟩ : SummaryRow) ∈
        reconcile [⟨"F1", some "A", some 0⟩] [⟨"f1", some 10, none, none⟩]) ∧
      (⟨"f1", some "A", some 0, 10, "Unknown", "Unknown", Perc.posInf⟩ :
        SummaryRow).delivery_percentage = Perc.posInf := by
  have hmem : (⟨"f1", some "A", some 0, 10, "Unknown", "Unknown", Perc.posInf⟩ :
      SummaryRow) ∈ reconcile [⟨"F1", some "A", some 0⟩] [⟨"f1", some 10, none, none⟩] := by
    simp +decide [reconcile, mergeLeft, mergedFor, withPct, traceAgg, aggRowOf,
      normFarmers, normTraces, uniqueFirst, uniqAux, groupOf, aggNet, aggCertRaw,
      aggExporterRaw, joinSep, deliveryPct, round2, List.find?]
  refine ⟨hmem, ?_⟩
  rw [C1_zero_quota_percentage _ _ _ hmem (by norm_num) (Or.inl rfl)]
  rw [if_pos ⟨rfl, by norm_num⟩]

/-- Claim C2 — counterexample.  The claim that the fetcher "does not
return a result that is indistinguishable from an empty success"
fails: an exception on the very first page of a one-row table returns
the empty frame, equal to what a successful fetch of an empty table
returns.  (The `st.error` message is a UI side effect, not part of the
return value the caller consumes.) -/
theorem C2_counterexample :
    (load_data_batched [(⟨"f1", some "A", some 100⟩ : FarmerRow)] none (some 0)
        "farmers" 1000 0).2.1 =
      (load_data_batched ([] : List FarmerRow) none none "farmers" 1000 0).2.1 := by
  have h1 : (load_data_batched [(⟨"f1", some "A", some 100⟩ : FarmerRow)] none (some 0)
      "farmers" 1000 0).2.1 = [] := by
    rw [load_data_batched]
    simp
  have h2 : (load_data_batched ([] : List FarmerRow) none none "farmers" 1000 0).2.1
      = [] := by
    rw [load_data_batched]
    simp
  rw [h1, h2]

/-- Claim C2 (amended): on any transport/query failure — an exception
or a null `result.data` at the `j`-th request, for any `j` whose
earlier requests all returned non-empty pages (so in particular
mid-fetch, after pages have been accumulated) — the fetcher emits (via
`st.error`) a message naming the offending table, discards the rows
accumulated so far, and *returns* the empty frame — equal to the
result of successfully fetching an empty table, so callers cannot
distinguish the two from the returned data. -/
theorem C2_failure_reporting {α : Type} (table : List α) (tname : String) (P j : Nat)
    (hP : 0 < P) (hreach : ∀ i < j, i * P < table.length) :
    (load_data_batched table none (some (j * P)) tname P 0).1 =
        some ("An error occurred during batched data loading from '" ++ tname ++ "'") ∧
      (load_data_batched table none (some (j * P)) tname P 0).2.1 = [] ∧
      (load_data_batched table none (some (j * P)) tname P 0).2.2 =
        (List.range (j + 1)).map (fun i => i * P) ∧
      (load_data_batched table (some (j * P)) none tname P 0).1 =
        some ("Failed to fetch data from '" ++ tname ++ "' — no data returned.") ∧
      (load_data_batched table (some (j * P)) none tname P 0).2.1 = [] ∧
      (load_data_batched table none (some (j * P)) tname P 0).2.1 =
        (load_data_batched ([] : List α) none none tname P 0).2.1 := by
  have hreach' : ∀ i < j, 0 + i * P < table.length := by
    intro i hi
    simpa using hreach i hi
  have hexc := load_data_batched_exc table tname P hP j 0 hreach'
  have hnull := load_data_batched_nulldata table tname P hP j 0 hreach'
  simp only [Nat.zero_add] at hexc hnull
  have hempty : (load_data_batched ([] : List α) none none tname P 0).2.1 = [] := by
    rw [load_data_batched_ok ([] : List α) tname P hP 0]
    rfl
  exact ⟨by rw [hexc], by rw [hexc], by rw [hexc], by rw [hnull], by rw [hnull],
    by rw [hexc, hempty]⟩

/-- Claim C2 — witness: a failure at the *second* request of a
three-row table (the first page was fetched and accumulated, then
discarded): the error names the table, yet the returned frame equals
the empty-table success result. -/
theorem C2_witness :
    0 < 2 ∧ (∀ i < 1, i * 2 < ([10, 20, 30] : List ℕ).length) ∧
      (load_data_batched [10, 20, 30] none (some (1 * 2)) "traceability" 2 0).1 =
        some ("An error occurred during batched data loading from '" ++
          "traceability" ++ "'") ∧
      (load_data_batched [10, 20, 30] none (some (1 * 2)) "traceability" 2 0).2.1 = [] ∧
      (load_data_batched [10, 20, 30] none (some (1 * 2)) "traceability" 2 0).2.1 =
        (load_data_batched ([] : List ℕ) none none "traceability" 2 0).2.1 := by
  have h := C2_failure_reporting [10, 20, 30] "traceability" 2 1 (by decide) (by decide)
  exact ⟨by decide, by decide, h.1, h.2.1, h.2.2.2.2.2⟩

/-- Claim C3 — counterexample.  The claim "one summary row per farmer_id
in the union of FarmerRecord and TraceEvent keys" fails: a trace event
for `f2` with no farmer record yields no summary row, because the
merge on line 99 is a *left* merge that keeps only farmer-side keys. -/
theorem C3_counterexample :
    uniqueFirst
        (([⟨"f1", some "A", some 100⟩] : List FarmerRow).map (fun f => normId f.farmer_id) ++
          ([⟨"f2", some 5, none, none⟩] : List TraceRow).map (fun e => normId e.farmer_id)) =
      ["f1", "f2"] ∧
      (reconcile [⟨"f1", some "A", some 100⟩] [⟨"f2", some 5, none, none⟩]).map
        (fun r => r.farmer_id) = ["f1"] := by
  constructor
  · decide
  · rw [reconcile_map_id]
    decide

/-- Claim C3 (amended): the reconciled summary has exactly one row per
*FarmerTable* row, carrying that row's normalized `farmer_id`, in
order; a `farmer_id` occurring only in the TraceTable yields no
summary row. -/
theorem C3_left_outer_rows (fs : List FarmerRow) (ts : List TraceRow) :
    (reconcile fs ts).map (fun r => r.farmer_id) =
      fs.map (fun f => normId f.farmer_id) :=
  reconcile_map_id fs ts

/-- Claim C6: for any table of `N` records and page size `P > 0`, the
fetch loop terminates (it is a total function), returns exactly the
`N` records in order, requests pages at offsets `0, P, 2P, …` (each
request covering `P` offsets, i.e. `range(offset, offset + P - 1)`),
and issues `⌈N/P⌉ + 1` requests — within the claim's allowed
`⌈N/P⌉`-or-`⌈N/P⌉+1` bound; when `P` divides `N` the final full page
is still returned, followed by one empty-page request. -/
theorem C6_pagination {α : Type} (store : List α) (tname : String) (P : Nat)
    (hP : 0 < P) :
    (load_data_batched store none none tname P 0).2.1 = store ∧
      (load_data_batched store none none tname P 0).2.2 =
        (List.range ((store.length + P - 1) / P + 1)).map (fun i => i * P) ∧
      ((load_data_batched store none none tname P 0).2.2.length =
          (store.length + P - 1) / P ∨
        (load_data_batched store none none tname P 0).2.2.length =
          (store.length + P - 1) / P + 1) := by
  rw [load_data_batched_ok store tname P hP 0]
  refine ⟨by simp, by simp, Or.inr (by simp)⟩

/-- Claim C6 — witness at `N = 3`, `P = 2`: all three records returned,
requests at offsets `0, 2, 4`, i.e. `⌈3/2⌉ + 1 = 3` requests. -/
theorem C6_witness :
    0 < 2 ∧
      (load_data_batched [10, 20, 30] none none "traceability" 2 0).2.1 = [10, 20, 30] ∧
      (load_data_batched [10, 20, 30] none none "traceability" 2 0).2.2.length = 3 := by
  refine ⟨by decide, (C6_pagination [10, 20, 30] "traceability" 2 (by decide)).1, ?_⟩
  rw [(C6_pagination [10, 20, 30] "traceability" 2 (by decide)).2.1]
  decide

/-- Claim C9 — counterexample.  The claim "a zero-row fetch flows
through the pipeline producing an empty well-typed result; only a
fetch error aborts processing" fails: a zero-row farmers fetch yields
a frame with no columns, line 84 (`farmers_df['farmer_id']`) raises
`KeyError: 'farmer_id'`, and the top-level handler aborts with
"Error loading data: 'farmer_id'" even though the fetch succeeded. -/
theorem C9_counterexample :
    loadAndStandardize []
        [[("farmer_id", Val.str "F1"), ("net_weight_kg", Val.num 10)]] =
      Except.error "'farmer_id'" := by
  rfl

/-- Claim C9 (amended): whenever the farmers fetch yields zero rows, the
pipeline aborts at the `farmer_id` standardization step with the
`KeyError` caught by the top-level handler — it does not produce an
empty reconciled result, regardless of the traceability data. -/
theorem C9_empty_farmers_aborts (traceRaw : List RawRow) :
    loadAndStandardize [] traceRaw = Except.error "'farmer_id'" := rfl

/-- Claim C4: the reconciled summary has exactly one row for each
FarmerTable row (positionally), keeping the farmer's cooperative and
quota with the normalized id; a farmer with no matching trace events
(after normalization) gets `net_weight_kg = 0`,
`certification = "Unknown"`, `exporter = "Unknown"`. -/
theorem C4_unmatched_farmers (fs : List FarmerRow) (ts : List TraceRow) :
    (reconcile fs ts).length = fs.length ∧
      ∀ p ∈ fs.zip (reconcile fs ts),
        p.2.farmer_id = normId p.1.farmer_id ∧
        p.2.cooperative = p.1.cooperative ∧
        p.2.max_quota_kg = p.1.max_quota_kg ∧
        (normId p.1.farmer_id ∉ ts.map (fun e => normId e.farmer_id) →
          p.2.net_weight_kg = 0 ∧ p.2.certification = "Unknown" ∧
            p.2.exporter = "Unknown") := by
  refine ⟨reconcile_length fs ts, ?_⟩
  intro p hp
  rw [reconcile_eq_map] at hp
  rw [zip_map_self] at hp
  rcases List.mem_map.mp hp with ⟨f, _, rfl⟩
  refine ⟨mergedFor_farmer_id _ _, mergedFor_cooperative _ _, mergedFor_max_quota _ _, ?_⟩
  intro hid
  have hx : normId f.farmer_id ∉ (normTraces ts).map (fun e => e.farmer_id) := by
    rw [normTraces_map_id]
    exact hid
  have hm := mergedFor_traceAgg (normTraces ts)
    { f with farmer_id := normId f.farmer_id }
  rw [if_neg hx] at hm
  show ((mergedFor (traceAgg (normTraces ts))
      { f with farmer_id := normId f.farmer_id }).net_weight_kg = 0 ∧ _ ∧ _)
  rw [hm]
  exact ⟨rfl, rfl, rfl⟩

/-- Claim C4 — witness: a farmer whose (normalized) id has no trace
events gets the fill-in values. -/
theorem C4_witness :
    (reconcile [⟨" F3 ", none, some 50⟩] [⟨"f1", some 2, none, none⟩]).length = 1 ∧
      ((⟨" F3 ", none, some 50⟩ : FarmerRow),
          (⟨"f3", none, some 50, 0, "Unknown", "Unknown", Perc.val 0⟩ : SummaryRow)) ∈
        ([⟨" F3 ", none, some 50⟩] : List FarmerRow).zip
          (reconcile [⟨" F3 ", none, some 50⟩] [⟨"f1", some 2, none, none⟩]) ∧
      ((⟨"f3", none, some 50, 0, "Unknown", "Unknown", Perc.val 0⟩ : SummaryRow).net_weight_kg = 0 ∧
        (⟨"f3", none, some 50, 0, "Unknown", "Unknown", Perc.val 0⟩ : SummaryRow).certification = "Unknown" ∧
        (⟨"f3", none, some 50, 0, "Unknown", "Unknown", Perc.val 0⟩ : SummaryRow).exporter = "Unknown") := by
  have hmem : ((⟨" F3 ", none, some 50⟩ : FarmerRow),
      (⟨"f3", none, some 50, 0, "Unknown", "Unknown", Perc.val 0⟩ : SummaryRow)) ∈
      ([⟨" F3 ", none, some 50⟩] : List FarmerRow).zip
        (reconcile [⟨" F3 ", none, some 50⟩] [⟨"f1", some 2, none, none⟩]) := by
    simp +decide [reconcile, mergeLeft, mergedFor, withPct, traceAgg, aggRowOf,
      normFarmers, normTraces, uniqueFirst, uniqAux, groupOf, aggNet, aggCertRaw,
      aggExporterRaw, joinSep, deliveryPct, round2, List.find?]
  refine ⟨(C4_unmatched_farmers [⟨" F3 ", none, some 50⟩] [⟨"f1", some 2, none, none⟩]).1,
    hmem, ?_⟩
  exact ((C4_unmatched_farmers [⟨" F3 ", none, some 50⟩]
    [⟨"f1", some 2, none, none⟩]).2 _ hmem).2.2.2 (by decide)

/-- Claim C5: the pipeline sees `farmer_id` only through the
trim-and-lower-case normalization — replacing any id by an equivalent
one (equal after normalization) leaves the whole reconciled summary
unchanged — and concretely, a farmer and trace events whose ids agree
up to case and surrounding whitespace land in a single summary row
whose weight aggregates all those events. -/
theorem C5_key_normalization :
    (∀ (fs fs' : List FarmerRow) (ts ts' : List TraceRow),
        normFarmers fs = normFarmers fs' → normTraces ts = normTraces ts' →
        reconcile fs ts = reconcile fs' ts') ∧
      (∀ (f : FarmerRow) (e1 e2 : TraceRow),
        normId e1.farmer_id = normId f.farmer_id →
        normId e2.farmer_id = normId f.farmer_id →
        (reconcile [f] [e1, e2]).map (fun r => (r.farmer_id, r.net_weight_kg)) =
          [(normId f.farmer_id, e1.net_weight_kg.getD 0 + e2.net_weight_kg.getD 0)]) := by
  constructor
  · intro fs fs' ts ts' h1 h2
    rw [reconcile, h1, h2, reconcile]
  · intro f e1 e2 h1 h2
    simp [reconcile, normFarmers, normTraces, mergeLeft, mergedFor, withPct,
      traceAgg, aggRowOf, uniqueFirst, uniqAux, groupOf, aggNet, h1, h2, List.find?]

/-- Claim C5 — witness: `"F001"`, `" f001 "` and `"f001"` merge into one
summary row collecting both weights. -/
theorem C5_witness :
    normId " f001 " = normId "F001" ∧ normId "f001" = normId "F001" ∧
      (reconcile [⟨"F001", some "A", some 100⟩]
          [⟨" f001 ", some 40, some "Organic", some "ExpX"⟩,
            ⟨"f001", some 20, some "Organic", some "ExpX"⟩]).map
        (fun r => (r.farmer_id, r.net_weight_kg)) = [("f001", 60)] := by
  refine ⟨by decide, by decide, ?_⟩
  rw [C5_key_normalization.2 ⟨"F001", some "A", some 100⟩
      ⟨" f001 ", some 40, some "Organic", some "ExpX"⟩
      ⟨"f001", some 20, some "Organic", some "ExpX"⟩ (by decide) (by decide),
    show normId "F001" = "f001" from by decide]
  norm_num

/-- Claim C7: per normalized farmer id, the aggregation computes
`net_weight_kg` as the sum of the group's weights with missing weights
as `0`; `certification` as the comma-joined distinct non-blank
certification values of the group (first-occurrence order), or
`"Unknown"` when there are none; and `exporter` as the first non-null
exporter of the group, or `"Unknown"` when all are missing — with one
aggregate row per distinct id. -/
theorem C7_trace_aggregation (ts : List TraceRow) :
    ((traceAgg (normTraces ts)).map (fun a => a.farmer_id) =
        uniqueFirst ((normTraces ts).map (fun e => e.farmer_id))) ∧
      ∀ a ∈ traceAgg (normTraces ts),
        (a.net_weight_kg =
          (((normTraces ts).filter (fun e => e.farmer_id = a.farmer_id)).map
            (fun e => e.net_weight_kg.getD 0)).sum) ∧
        (a.certification =
          (if uniqueFirst ((((normTraces ts).filter
                (fun e => e.farmer_id = a.farmer_id)).filterMap
                  (fun e => e.certification)).filter (fun v => stripStr v ≠ "")) = []
            then "Unknown"
            else joinSep ", " (uniqueFirst ((((normTraces ts).filter
                (fun e => e.farmer_id = a.farmer_id)).filterMap
                  (fun e => e.certification)).filter (fun v => stripStr v ≠ ""))))) ∧
        (a.exporter =
          (((normTraces ts).filter (fun e => e.farmer_id = a.farmer_id)).filterMap
            (fun e => e.exporter)).head?.getD "Unknown") := by
  constructor
  · rw [traceAgg, List.map_map]
    have hcomp : ((fun a : AggRow => a.farmer_id) ∘ aggRowOf (normTraces ts)) = id :=
      funext fun k => rfl
    rw [hcomp, List.map_id]
  · intro a ha
    rw [traceAgg] at ha
    rcases List.mem_map.mp ha with ⟨k, _, rfl⟩
    exact ⟨rfl, aggRowOf_cert_char (normTraces ts) k, rfl⟩

/-- Claim C7 — witness: a group with a missing weight, a blank and a
proper certification, and one missing exporter. -/
theorem C7_witness :
    (⟨"f1", 5, "C", "E"⟩ : AggRow) ∈
        traceAgg (normTraces [⟨"F1 ", some 5, some "C", none⟩,
          ⟨"f1", none, some " ", some "E"⟩]) ∧
      (((normTraces [⟨"F1 ", some 5, some "C", none⟩,
          ⟨"f1", none, some " ", some "E"⟩]).filter
            (fun e => e.farmer_id = "f1")).map
          (fun e => e.net_weight_kg.getD 0)).sum = 5 ∧
      (if uniqueFirst ((((normTraces [⟨"F1 ", some 5, some "C", none⟩,
            ⟨"f1", none, some " ", some "E"⟩]).filter
              (fun e => e.farmer_id = "f1")).filterMap
                (fun e => e.certification)).filter (fun v => stripStr v ≠ "")) = []
        then "Unknown"
        else joinSep ", " (uniqueFirst ((((normTraces [⟨"F1 ", some 5, some "C", none⟩,
            ⟨"f1", none, some " ", some "E"⟩]).filter
              (fun e => e.farmer_id = "f1")).filterMap
                (fun e => e.certification)).filter (fun v => stripStr v ≠ "")))) = "C" ∧
      (((normTraces [⟨"F1 ", some 5, some "C", none⟩,
          ⟨"f1", none, some " ", some "E"⟩]).filter
            (fun e => e.farmer_id = "f1")).filterMap
          (fun e => e.exporter)).head?.getD "Unknown" = "E" := by
  have hmem : (⟨"f1", 5, "C", "E"⟩ : AggRow) ∈
      traceAgg (normTraces [⟨"F1 ", some 5, some "C", none⟩,
        ⟨"f1", none, some " ", some "E"⟩]) := by
    simp +decide [traceAgg, aggRowOf, normTraces, uniqueFirst, uniqAux, groupOf,
      aggNet, aggCertRaw, aggExporterRaw, joinSep]
  have h := (C7_trace_aggregation [⟨"F1 ", some 5, some "C", none⟩,
    ⟨"f1", none, some " ", some "E"⟩]).2 _ hmem
  exact ⟨hmem, h.1.symm, h.2.1.symm, h.2.2.symm⟩

/-- Claim C10: if the FarmerTable has `k` rows sharing one normalized
`farmer_id`, the summary has exactly `k` rows for that id, each
carrying the identical full aggregated weight of that farmer's trace
events, so the summary-level total counts that weight `k` times. -/
theorem C10_duplicate_farmers (fs : List FarmerRow) (ts : List TraceRow) (k : String) :
    ((reconcile fs ts).filter (fun r => r.farmer_id = k)).length =
        (fs.filter (fun f => normId f.farmer_id = k)).length ∧
      (∀ r ∈ reconcile fs ts, r.farmer_id = k →
        r.net_weight_kg =
          (((normTraces ts).filter (fun e => e.farmer_id = k)).map
            (fun e => e.net_weight_kg.getD 0)).sum) ∧
      (((reconcile fs ts).filter (fun r => r.farmer_id = k)).map
          (fun r => r.net_weight_kg)).sum =
        ((fs.filter (fun f => normId f.farmer_id = k)).length : ℚ) *
          (((normTraces ts).filter (fun e => e.farmer_id = k)).map
            (fun e => e.net_weight_kg.getD 0)).sum := by
  have hfeq : (reconcile fs ts).filter (fun r => r.farmer_id = k) =
      (fs.filter (fun f => normId f.farmer_id = k)).map (fun f =>
        withPct (mergedFor (traceAgg (normTraces ts))
          { f with farmer_id := normId f.farmer_id })) := by
    rw [reconcile_eq_map, List.filter_map]
    refine congrArg _ (List.filter_congr fun f _ => ?_)
    show decide ((withPct (mergedFor _ _)).farmer_id = k) = decide (normId f.farmer_id = k)
    have hid : (withPct (mergedFor (traceAgg (normTraces ts))
        { f with farmer_id := normId f.farmer_id })).farmer_id = normId f.farmer_id :=
      mergedFor_farmer_id _ _
    rw [hid]
  have hnet : ∀ r ∈ reconcile fs ts, r.farmer_id = k →
      r.net_weight_kg =
        (((normTraces ts).filter (fun e => e.farmer_id = k)).map
          (fun e => e.net_weight_kg.getD 0)).sum := by
    intro r hr hk
    rw [reconcile_net fs ts r hr, hk]
    rfl
  refine ⟨by rw [hfeq, List.length_map], hnet, ?_⟩
  have hconst : ∀ x ∈ ((reconcile fs ts).filter (fun r => r.farmer_id = k)).map
      (fun r => r.net_weight_kg),
      x = (((normTraces ts).filter (fun e => e.farmer_id = k)).map
        (fun e => e.net_weight_kg.getD 0)).sum := by
    intro x hx
    rcases List.mem_map.mp hx with ⟨r, hrf, rfl⟩
    have hmem := List.mem_filter.mp hrf
    exact hnet r hmem.1 (of_decide_eq_true hmem.2)
  rw [List.sum_eq_card_nsmul _ _ hconst, List.length_map, hfeq, List.length_map,
    nsmul_eq_mul]

/-- Claim C10 — witness: two farmer rows normalizing to `"f1"`, two
trace events summing to `15`; the summary carries two rows of weight
`15` and the summary total is `30`. -/
theorem C10_witness :
    ((reconcile [⟨"F1", some "A", some 100⟩, ⟨" f1 ", some "B", some 50⟩]
        [⟨"f1", some 10, none, none⟩, ⟨"F1 ", some 5, none, none⟩]).filter
      (fun r => r.farmer_id = "f1")).length = 2 ∧
      ((⟨"f1", some "A", some 100, 15, "Unknown", "Unknown", Perc.val 15⟩ : SummaryRow) ∈
        reconcile [⟨"F1", some "A", some 100⟩, ⟨" f1 ", some "B", some 50⟩]
          [⟨"f1", some 10, none, none⟩, ⟨"F1 ", some 5, none, none⟩]) ∧
      (((normTraces [⟨"f1", some 10, none, none⟩, ⟨"F1 ", some 5, none, none⟩]).filter
          (fun e => e.farmer_id = "f1")).map (fun e => e.net_weight_kg.getD 0)).sum = 15 ∧
      (((reconcile [⟨"F1", some "A", some 100⟩, ⟨" f1 ", some "B", some 50⟩]
          [⟨"f1", some 10, none, none⟩, ⟨"F1 ", some 5, none, none⟩]).filter
        (fun r => r.farmer_id = "f1")).map (fun r => r.net_weight_kg)).sum = 30 := by
  have h := C10_duplicate_farmers
    [⟨"F1", some "A", some 100⟩, ⟨" f1 ", some "B", some 50⟩]
    [⟨"f1", some 10, none, none⟩, ⟨"F1 ", some 5, none, none⟩] "f1"
  have hmem : (⟨"f1", some "A", some 100, 15, "Unknown", "Unknown", Perc.val 15⟩ :
      SummaryRow) ∈
      reconcile [⟨"F1", some "A", some 100⟩, ⟨" f1 ", some "B", some 50⟩]
        [⟨"f1", some 10, none, none⟩, ⟨"F1 ", some 5, none, none⟩] := by
    simp +decide [reconcile, mergeLeft, mergedFor, withPct, traceAgg, aggRowOf,
      normFarmers, normTraces, uniqueFirst, uniqAux, groupOf, aggNet, aggCertRaw,
      aggExporterRaw, joinSep, deliveryPct, round2, List.find?]
    norm_num [round_eq]
  have hsum : (((normTraces [⟨"f1", some 10, none, none⟩, ⟨"F1 ", some 5, none, none⟩]).filter
      (fun e => e.farmer_id = "f1")).map (fun e => e.net_weight_kg.getD 0)).sum = 15 :=
    ((h.2.1 _ hmem rfl).symm : _ = (⟨"f1", some "A", some 100, 15, "Unknown", "Unknown",
      Perc.val 15⟩ : SummaryRow).net_weight_kg)
  refine ⟨h.1.trans (by decide), hmem, hsum, ?_⟩
  have hlen : (([⟨"F1", some "A", some 100⟩, ⟨" f1 ", some "B", some 50⟩] :
      List FarmerRow).filter (fun f => normId f.farmer_id = "f1")).length = 2 := by
    decide
  rw [h.2.2, hsum, hlen]
  norm_num

/-! ## helper facts for the grouped-sum claim -/

lemma filterStage_sublist (rows : List SummaryRow) (c x : Option String) :
    (filterStage rows c x).Sublist rows := by
  rw [filterStage.eq_def]
  cases c with
  | none =>
    cases x with
    | none => exact List.Sublist.refl _
    | some xv => exact List.filter_sublist _
  | some cv =>
    cases x with
    | none => exact List.filter_sublist _
    | some xv => exact (List.filter_sublist _).trans (List.filter_sublist _)

lemma mem_of_filterStage {rows : List SummaryRow} {c x : Option String}
    {r : SummaryRow} (h : r ∈ filterStage rows c x) : r ∈ rows :=
  (filterStage_sublist rows c x).subset h

/-- In a list with pairwise-distinct ids, filtering on an id present
in the list yields exactly the unique row carrying it. -/
lemma filter_id_singleton {γ : Type} (idOf : γ → String) :
    ∀ (l : List γ), (l.map idOf).Nodup → ∀ x, x ∈ l.map idOf →
      ∃ r, l.filter (fun a => idOf a = x) = [r] ∧ idOf r = x ∧ r ∈ l := by
  intro l
  induction l with
  | nil =>
    intro _ x hx
    simp at hx
  | cons a l IH =>
    intro hnd x hx
    rw [List.map_cons, List.nodup_cons] at hnd
    by_cases hax : idOf a = x
    · refine ⟨a, ?_, hax, List.mem_cons_self _ _⟩
      have hrest : l.filter (fun b => idOf b = x) = [] := by
        rw [List.filter_eq_nil_iff]
        intro b hb hdec
        refine hnd.1 ?_
        rw [hax, ← of_decide_eq_true hdec]
        exact List.mem_map.mpr ⟨b, hb, rfl⟩
      rw [List.filter_cons, if_pos (by simp [hax]), hrest]
    · rcases List.mem_cons.mp hx with heq | hx'
      · exact absurd heq.symm hax
      · rcases IH hnd.2 x hx' with ⟨r, hfil, hr, hmem⟩
        refine ⟨r, ?_, hr, List.mem_cons_of_mem _ hmem⟩
        rw [List.filter_cons, if_neg (by simp [hax]), hfil]

lemma sum_map_flatMap {α β : Type} (v : β → ℚ) (g : α → List β) (l : List α) :
    ((l.flatMap g).map v).sum = (l.map (fun a => ((g a).map v).sum)).sum := by
  induction l with
  | nil => rfl
  | cons a l IH => simp [IH]

/-- Under no missing exporter/certification among the filtered
farmers' events, the exporter×certification view conserves the total
event weight of the filtered farmers. -/
lemma certExp_total (nts : List TraceRow) (S : List SummaryRow)
    (hevt : ∀ e ∈ nts, e.farmer_id ∈ filteredIds S →
      e.certification.isSome ∧ e.exporter.isSome) :
    bucketTotal (certExpSummary nts S) =
      ((nts.filter (fun e => e.farmer_id ∈ filteredIds S)).map
        (fun e => e.net_weight_kg.getD 0)).sum := by
  rw [certExpSummary, bucketTotal_groupBySum]
  refine congrArg _ (congrArg _ (List.filter_eq_self.mpr ?_))
  intro e he
  have hmem := List.mem_filter.mp he
  have hids := of_decide_eq_true hmem.2
  rcases hevt e hmem.1 hids with ⟨hc, hx⟩
  rcases Option.isSome_iff_exists.mp hc with ⟨cv, hcv⟩
  rcases Option.isSome_iff_exists.mp hx with ⟨xv, hxv⟩
  simp [hcv, hxv]

/-- Under distinct summary ids and no missing cooperative /
certification, the cooperative×certification view conserves the total
event weight of the filtered farmers. -/
lemma certCoop_total (nts : List TraceRow) (S : List SummaryRow)
    (hndS : (S.map (fun r => r.farmer_id)).Nodup)
    (hcoop : ∀ r ∈ S, r.cooperative.isSome)
    (hevt : ∀ e ∈ nts, e.farmer_id ∈ filteredIds S →
      e.certification.isSome ∧ e.exporter.isSome) :
    bucketTotal (certCoopSummary nts S) =
      ((nts.filter (fun e => e.farmer_id ∈ filteredIds S)).map
        (fun e => e.net_weight_kg.getD 0)).sum := by
  have hsingle : ∀ e ∈ nts.filter (fun e => e.farmer_id ∈ filteredIds S),
      ∃ r, S.filter (fun r => r.farmer_id = e.farmer_id) = [r] ∧
        r.farmer_id = e.farmer_id ∧ r ∈ S := by
    intro e he
    have hmem := List.mem_filter.mp he
    have hids : e.farmer_id ∈ S.map (fun r => r.farmer_id) := by
      have h1 := of_decide_eq_true hmem.2
      rw [filteredIds] at h1
      exact mem_uniqueFirst.mp h1
    exact filter_id_singleton (fun r => r.farmer_id) S hndS e.farmer_id hids
  rw [certCoopSummary, bucketTotal_groupBySum]
  have hall : (certCoopFiltered nts S).filter
      (fun p => (match p.2, p.1.certification with
        | some c, some cert => some ((c, cert) : String × String)
        | _, _ => none).isSome) = certCoopFiltered nts S := by
    rw [List.filter_eq_self]
    intro p hp
    rw [certCoopFiltered, List.mem_flatMap] at hp
    rcases hp with ⟨e, he, hpe⟩
    rcases hsingle e he with ⟨r, hfil, hrid, hrS⟩
    rw [hfil] at hpe
    have hpe' : p = (e, r.cooperative) := by
      simpa using hpe
    have hmem := List.mem_filter.mp he
    rcases hevt e hmem.1 (of_decide_eq_true hmem.2) with ⟨hc, _⟩
    rcases Option.isSome_iff_exists.mp hc with ⟨cv, hcv⟩
    rcases Option.isSome_iff_exists.mp (hcoop r hrS) with ⟨co, hco⟩
    rw [hpe']
    simp [hco, hcv]
  rw [hall, certCoopFiltered, sum_map_flatMap]
  refine congrArg _ (List.map_congr_left fun e he => ?_)
  rcases hsingle e he with ⟨r, hfil, hrid, hrS⟩
  rw [hfil]
  simp

/-- Under distinct farmer ids, the filtered summary's total weight is
the total weight of the filtered farmers' events. -/
lemma summary_total (fs : List FarmerRow) (ts : List TraceRow)
    (c x : Option String)
    (hnd : (fs.map (fun f => normId f.farmer_id)).Nodup) :
    ((filterStage (reconcile fs ts) c x).map (fun r => r.net_weight_kg)).sum =
      (((normTraces ts).filter (fun e =>
          e.farmer_id ∈ filteredIds (filterStage (reconcile fs ts) c x))).map
        (fun e => e.net_weight_kg.getD 0)).sum := by
  have hndS : ((filterStage (reconcile fs ts) c x).map (fun r => r.farmer_id)).Nodup := by
    refine List.Nodup.sublist ((filterStage_sublist _ c x).map _) ?_
    rw [reconcile_map_id]
    exact hnd
  set S := filterStage (reconcile fs ts) c x with hS
  -- each filtered row's weight is its id's group total
  have hnet : ∀ r ∈ S, r.net_weight_kg =
      (((normTraces ts).filter (fun e => e.farmer_id = r.farmer_id)).map
        (fun e => e.net_weight_kg.getD 0)).sum := by
    intro r hr
    exact reconcile_net fs ts r (mem_of_filterStage hr)
  have h1 : (S.map (fun r => r.net_weight_kg)).sum =
      (S.map (fun r =>
        (((normTraces ts).filter (fun e => e.farmer_id = r.farmer_id)).map
          (fun e => e.net_weight_kg.getD 0)).sum)).sum := by
    refine congrArg _ (List.map_congr_left fun r hr => ?_)
    exact hnet r hr
  rw [h1]
  have h2 : (S.map (fun r =>
      (((normTraces ts).filter (fun e => e.farmer_id = r.farmer_id)).map
        (fun e => e.net_weight_kg.getD 0)).sum)).sum =
      ((S.map (fun r => r.farmer_id)).map (fun k =>
        (((normTraces ts).filter (fun e => e.farmer_id = k)).map
          (fun e => e.net_weight_kg.getD 0)).sum)).sum := by
    rw [List.map_map]
    rfl
  rw [h2]
  have hcov : ∀ e ∈ normTraces ts, ∀ k,
      (if e.farmer_id ∈ S.map (fun r => r.farmer_id) then some e.farmer_id else none)
        = some k → k ∈ S.map (fun r => r.farmer_id) := by
    intro e _ k hk
    by_cases hm : e.farmer_id ∈ S.map (fun r => r.farmer_id)
    · rw [if_pos hm] at hk
      injection hk with hk
      exact hk ▸ hm
    · rw [if_neg hm] at hk
      cases hk
  have hpart := keyPartition
    (fun e : TraceRow =>
      if e.farmer_id ∈ S.map (fun r => r.farmer_id) then some e.farmer_id else none)
    (fun e => e.net_weight_kg.getD 0)
    (S.map (fun r => r.farmer_id)) (normTraces ts) hndS hcov
  have ha : (S.map (fun r => r.farmer_id)).map (fun k =>
      (((normTraces ts).filter (fun e => e.farmer_id = k)).map
        (fun e => e.net_weight_kg.getD 0)).sum) =
      (S.map (fun r => r.farmer_id)).map (fun k =>
        (((normTraces ts).filter (fun e =>
            (if e.farmer_id ∈ S.map (fun r => r.farmer_id) then some e.farmer_id
              else none) = some k)).map
          (fun e => e.net_weight_kg.getD 0)).sum) := by
    refine List.map_congr_left fun k hk => ?_
    refine congrArg _ (congrArg _ (List.filter_congr fun e _ => ?_))
    by_cases hm : e.farmer_id ∈ S.map (fun r => r.farmer_id)
    · simp [hm]
    · have hne : e.farmer_id ≠ k := fun heq => hm (heq ▸ hk)
      simp [hm, hne]
  rw [ha, hpart]
  refine congrArg _ (congrArg _ (List.filter_congr fun e _ => ?_))
  by_cases hm : e.farmer_id ∈ S.map (fun r => r.farmer_id)
  · have hin : e.farmer_id ∈ filteredIds S := by
      rw [filteredIds]
      exact mem_uniqueFirst.mpr hm
    simp [hm, hin]
  · have hout : e.farmer_id ∉ filteredIds S := by
      intro hc
      rw [filteredIds] at hc
      exact hm (mem_uniqueFirst.mp hc)
    simp [hm, hout]

/-- Claim C8 — counterexample.  The claim fails "including events with
missing certification, cooperative, or exporter values": an event with
a missing exporter is dropped entirely from the exporter×certification
groupby (pandas drops null grouping keys), so that view's total is `0`
while the filtered summary still carries the event's 10 kg. -/
theorem C8_counterexample :
    bucketTotal (certExpSummary
        (normTraces [⟨"f1", some 10, some "C", none⟩])
        (filterStage (reconcile [⟨"f1", some "A", some 100⟩]
          [⟨"f1", some 10, some "C", none⟩]) none none)) = 0 ∧
      ((filterStage (reconcile [⟨"f1", some "A", some 100⟩]
          [⟨"f1", some 10, some "C", none⟩]) none none).map
        (fun r => r.net_weight_kg)).sum = 10 := by
  constructor
  · simp +decide [certExpSummary, groupBySum, bucketTotal, filterStage, filteredIds,
      reconcile, mergeLeft, mergedFor, withPct, traceAgg, aggRowOf, normFarmers,
      normTraces, uniqueFirst, uniqAux, groupOf, aggNet, aggCertRaw, aggExporterRaw,
      joinSep, deliveryPct, round2, List.find?]
  · simp +decide [filterStage, reconcile, mergeLeft, mergedFor, withPct, traceAgg,
      aggRowOf, normFarmers, normTraces, uniqueFirst, uniqAux, groupOf, aggNet,
      aggCertRaw, aggExporterRaw, joinSep, deliveryPct, round2, List.find?]

/-- Claim C8 (amended): when the farmer table has pairwise-distinct
normalized ids, every filtered summary row has a cooperative, and
every event of a filtered farmer has a certification and an exporter,
the cooperative×certification bucket total, the
exporter×certification bucket total, and the filtered summary's total
`net_weight_kg` all agree. -/
theorem C8_grouped_sum_conservation (fs : List FarmerRow) (ts : List TraceRow)
    (c x : Option String)
    (hnd : (fs.map (fun f => normId f.farmer_id)).Nodup)
    (hcoop : ∀ r ∈ filterStage (reconcile fs ts) c x, r.cooperative.isSome)
    (hevt : ∀ e ∈ normTraces ts,
      e.farmer_id ∈ filteredIds (filterStage (reconcile fs ts) c x) →
      e.certification.isSome ∧ e.exporter.isSome) :
    bucketTotal (certCoopSummary (normTraces ts)
        (filterStage (reconcile fs ts) c x)) =
      bucketTotal (certExpSummary (normTraces ts)
        (filterStage (reconcile fs ts) c x)) ∧
    bucketTotal (certExpSummary (normTraces ts)
        (filterStage (reconcile fs ts) c x)) =
      ((filterStage (reconcile fs ts) c x).map (fun r => r.net_weight_kg)).sum := by
  have hndS : ((filterStage (reconcile fs ts) c x).map
      (fun r => r.farmer_id)).Nodup := by
    refine List.Nodup.sublist ((filterStage_sublist _ c x).map _) ?_
    rw [reconcile_map_id]
    exact hnd
  have h1 := certCoop_total (normTraces ts) _ hndS hcoop hevt
  have h2 := certExp_total (normTraces ts) _ hevt
  have h3 := summary_total fs ts c x hnd
  exact ⟨h1.trans h2.symm, h2.trans h3.symm⟩

/-- Claim C8 — witness for the amended statement: one farmer, one fully
populated event; all three totals agree. -/
theorem C8_witness :
    bucketTotal (certCoopSummary
        (normTraces [⟨"f1", some 10, some "C", some "E"⟩])
        (filterStage (reconcile [⟨"f1", some "A", some 100⟩]
          [⟨"f1", some 10, some "C", some "E"⟩]) none none)) =
      bucketTotal (certExpSummary
        (normTraces [⟨"f1", some 10, some "C", some "E"⟩])
        (filterStage (reconcile [⟨"f1", some "A", some 100⟩]
          [⟨"f1", some 10, some "C", some "E"⟩]) none none)) ∧
    bucketTotal (certExpSummary
        (normTraces [⟨"f1", some 10, some "C", some "E"⟩])
        (filterStage (reconcile [⟨"f1", some "A", some 100⟩]
          [⟨"f1", some 10, some "C", some "E"⟩]) none none)) =
      ((filterStage (reconcile [⟨"f1", some "A", some 100⟩]
          [⟨"f1", some 10, some "C", some "E"⟩]) none none).map
        (fun r => r.net_weight_kg)).sum :=
  C8_grouped_sum_conservation [⟨"f1", some "A", some 100⟩]
    [⟨"f1", some 10, some "C", some "E"⟩] none none
    (by decide) (by decide) (by decide)

end Cloudia
